import Mathlib

/-!
Verification of the school data manager (`src/app.js`): a shallow embedding
of its data layer (`Data`), query engine (`filterByTerm`, `sortBy`,
`groupBy`), reports (`UI.renderReportOutput`), import validation
(`validateAndLoadData`) and CSV parsing (`parseCSV`, `camel`), together with
theorems about the properties stated in the specification.

JS records in this app hold only string field values (forms, ids, CSV cells
are strings), so a record is embedded as an association list
`List (String × String)` with the first binding of a key the visible one and
property assignment replacing in place (JS objects hold each key once, in
insertion order).  Machine-level aspects (aliasing, `localStorage`, the DOM)
are modelled by explicit state passing and save traces.
-/

namespace SchoolApp

/-- A JS object with string-valued fields: association list, unique keys by
construction of every operation (`setField` replaces in place). -/
abbrev Obj := List (String × String)

/-- Property read `r.k`: `some v` for a present field, `none` for JS
`undefined` (polymorphic in the value type so that both string-valued
records and JSON objects use it). -/
def getField {B : Type} (r : List (String × B)) (k : String) : Option B :=
  (r.find? (fun p => p.1 == k)).map (fun p => p.2)

/-- Property write `r[k] = v`: replaces the binding in place when the key is
present (JS objects keep insertion order on assignment), appends otherwise.
A JS object holds each key at most once, so replacing the first binding is
the faithful embedding of assignment. -/
def setField {B : Type} : List (String × B) → String → B → List (String × B)
  | [], k, v => [(k, v)]
  | p :: rest, k, v =>
    if p.1 == k then (k, v) :: rest else p :: setField rest k v

/-- JS object spread `{...old, ...upd}`: every binding of `upd` assigned onto
`old` in order. -/
def spread (old upd : Obj) : Obj :=
  upd.foldl (fun acc p => setField acc p.1 p.2) old

/-- The four entity kinds of the repository (`students`, `teachers`,
`classes`, `enrollments`). -/
inductive EntityKind where
  | students | teachers | classes | enrollments
deriving DecidableEq, Repr

/-- The application snapshot (`AppState.state`): the four collections plus
version and theme. -/
structure Snapshot where
  version : String
  students : List Obj
  teachers : List Obj
  classes : List Obj
  enrollments : List Obj
  theme : String
deriving DecidableEq, Repr

/-- `AppState.initial()`. -/
def initialSnapshot : Snapshot :=
  { version := "1.0.0", students := [], teachers := [], classes := [],
    enrollments := [], theme := "dark" }

/-- `AppState.state[entity]`. -/
def getColl (s : Snapshot) : EntityKind → List Obj
  | .students => s.students
  | .teachers => s.teachers
  | .classes => s.classes
  | .enrollments => s.enrollments

/-- `AppState.state[entity] = coll`. -/
def setColl (s : Snapshot) (k : EntityKind) (coll : List Obj) : Snapshot :=
  match k with
  | .students => { s with students := coll }
  | .teachers => { s with teachers := coll }
  | .classes => { s with classes := coll }
  | .enrollments => { s with enrollments := coll }

/-!  The `Data` repository.  Each operation is embedded as a state
transformer returning the new snapshot together with the trace of
`StorageService.save` calls it performs, each entry being the full snapshot
at the moment of the save (the persistence claims are about this trace). -/

/-- `Data.add(entity, item)`: push onto the collection, then save. -/
def addOp (s : Snapshot) (k : EntityKind) (item : Obj) :
    Snapshot × List Snapshot :=
  let s' := setColl s k (getColl s k ++ [item])
  (s', [s'])

/-- The collection part of `Data.update`: replace the first record whose
`id` field equals `id` by the spread merge `{...record, ...upd}`; leave the
rest untouched (this is `findIndex` followed by in-place replacement). -/
def updateColl (id : String) (upd : Obj) : List Obj → List Obj
  | [] => []
  | r :: rest =>
    if getField r "id" == some id then spread r upd :: rest
    else r :: updateColl id upd rest

/-- `Data.update(entity, id, upd)`: on a hit, replace and save; on a miss
(`findIndex` returns `-1`) neither the state nor the store is touched. -/
def updateOp (s : Snapshot) (k : EntityKind) (id : String) (upd : Obj) :
    Snapshot × List Snapshot :=
  if (getColl s k).any (fun r => getField r "id" == some id) then
    let s' := setColl s k (updateColl id upd (getColl s k))
    (s', [s'])
  else (s, [])

/-- The cascade of `Data.remove` on `classes` when a teacher is removed:
`c.teacherId === id ? { ...c, teacherId: '' } : c`. -/
def clearTeacher (id : String) (c : Obj) : Obj :=
  if getField c "teacherId" == some id then setField c "teacherId" "" else c

/-- `Data.remove(entity, id)`: filter the primary collection by
`r.id !== id`, apply the cascade for the kind, then save once. -/
def removeOp (s : Snapshot) (k : EntityKind) (id : String) :
    Snapshot × List Snapshot :=
  let s1 := setColl s k ((getColl s k).filter
    (fun r => !(getField r "id" == some id)))
  let s2 :=
    match k with
    | .teachers => { s1 with classes := s1.classes.map (clearTeacher id) }
    | .students =>
        { s1 with
          enrollments :=
            s1.enrollments.filter (fun e => !(getField e "studentId" == some id)) }
    | .classes =>
        { s1 with
          enrollments :=
            s1.enrollments.filter (fun e => !(getField e "classId" == some id)) }
    | .enrollments => s1
  (s2, [s2])

/-- Referential integrity of enrollments (spec §3): every enrollment's
`studentId` and `classId` name an existing record. -/
def refIntegrity (s : Snapshot) : Prop :=
  ∀ e ∈ s.enrollments,
    (∃ sid, getField e "studentId" = some sid ∧
      ∃ st ∈ s.students, getField st "id" = some sid) ∧
    (∃ cid, getField e "classId" = some cid ∧
      ∃ c ∈ s.classes, getField c "id" = some cid)

instance (s : Snapshot) : Decidable (refIntegrity s) := by
  unfold refIntegrity; infer_instance

/-! ### Lemmas about field access -/

theorem getField_nil {B : Type} (k : String) : getField ([] : List (String × B)) k = none := rfl

theorem getField_cons {B : Type} (p : String × B) (l : List (String × B)) (k : String) :
    getField (p :: l) k = if p.1 == k then some p.2 else getField l k := by
  cases hb : p.1 == k with
  | false => simp [getField, List.find?_cons, hb]
  | true => simp [getField, List.find?_cons, hb]

theorem getField_setField_self {B : Type} (r : List (String × B)) (k : String) (v : B) :
    getField (setField r k v) k = some v := by
  induction r with
  | nil => simp [setField, getField_cons]
  | cons p rest ih =>
    by_cases hp : (p.1 == k) = true
    · show getField (if p.1 == k then (k, v) :: rest else p :: setField rest k v) k
        = some v
      rw [if_pos hp, getField_cons]
      simp
    · show getField (if p.1 == k then (k, v) :: rest else p :: setField rest k v) k
        = some v
      rw [if_neg hp, getField_cons, if_neg hp]
      exact ih

theorem getField_setField_ne {B : Type} (r : List (String × B)) (k : String) (v : B) (k' : String) (hne : k' ≠ k) :
    getField (setField r k v) k' = getField r k' := by
  have hkk' : ¬ ((k : String) == k') = true := by
    simp only [beq_iff_eq]; exact fun hc => hne hc.symm
  induction r with
  | nil => simp [setField, getField_cons, hkk', getField_nil]
  | cons p rest ih =>
    by_cases hp : (p.1 == k) = true
    · have hpk : p.1 = k := by simpa using hp
      have hpk' : ¬ (p.1 == k') = true := by
        simp only [beq_iff_eq, hpk]; exact fun hc => hne hc.symm
      show getField (if p.1 == k then (k, v) :: rest else p :: setField rest k v) k'
        = getField (p :: rest) k'
      rw [if_pos hp, getField_cons, if_neg hkk', getField_cons, if_neg hpk']
    · show getField (if p.1 == k then (k, v) :: rest else p :: setField rest k v) k'
        = getField (p :: rest) k'
      rw [if_neg hp, getField_cons, getField_cons]
      by_cases hp' : (p.1 == k') = true
      · rw [if_pos hp', if_pos hp']
      · rw [if_neg hp', if_neg hp']
        exact ih

/-! ### Lemmas about spread merge -/

theorem spread_getField_not_mem (upd : Obj) (r : Obj) (f : String)
    (h : f ∉ upd.map Prod.fst) :
    getField (spread r upd) f = getField r f := by
  induction upd generalizing r with
  | nil => rfl
  | cons p rest ih =>
    simp only [List.map_cons, List.mem_cons, not_or] at h
    obtain ⟨h1, h2⟩ := h
    show getField (spread (setField r p.1 p.2) rest) f = getField r f
    rw [ih _ h2, getField_setField_ne _ _ _ _ h1]

theorem spread_getField_mem (upd : Obj) (r : Obj) (f v : String)
    (hnd : (upd.map Prod.fst).Nodup) (hmem : (f, v) ∈ upd) :
    getField (spread r upd) f = some v := by
  induction upd generalizing r with
  | nil => simp at hmem
  | cons p rest ih =>
    simp only [List.map_cons, List.nodup_cons] at hnd
    obtain ⟨hp, hrest⟩ := hnd
    rcases List.mem_cons.mp hmem with hhead | htail
    · subst hhead
      show getField (spread (setField r f v) rest) f = some v
      rw [spread_getField_not_mem _ _ _ hp, getField_setField_self]
    · exact ih _ hrest htail

/-! ### Lemmas about collections -/

theorem getColl_setColl_self (s : Snapshot) (k : EntityKind) (c : List Obj) :
    getColl (setColl s k c) k = c := by
  cases k <;> rfl

theorem updateColl_miss (id : String) (upd : Obj) (coll : List Obj)
    (h : ∀ r ∈ coll, getField r "id" ≠ some id) :
    updateColl id upd coll = coll := by
  induction coll with
  | nil => rfl
  | cons r rest ih =>
    have hr : ¬ (getField r "id" == some id) = true := by
      simpa using h r (List.mem_cons_self r rest)
    unfold updateColl
    rw [if_neg hr]
    rw [ih fun r' hr' => h r' (List.mem_cons_of_mem r hr')]

theorem updateColl_hit (id : String) (upd : Obj) (pre post : List Obj)
    (r : Obj) (hr : getField r "id" = some id)
    (hpre : ∀ r' ∈ pre, getField r' "id" ≠ some id) :
    updateColl id upd (pre ++ r :: post) = pre ++ spread r upd :: post := by
  induction pre with
  | nil =>
    simp only [List.nil_append, updateColl, hr]
    simp
  | cons p rest ih =>
    have hp : ¬ (getField p "id" == some id) = true := by
      simpa using hpre p (List.mem_cons_self p rest)
    rw [List.cons_append]
    unfold updateColl
    rw [if_neg hp]
    rw [ih fun r' h' => hpre r' (List.mem_cons_of_mem p h')]
    simp

/-! ### Sample data (the spec's seeded scenario §8) -/

/-- Teacher T1 of the spec's example scenario. -/
def tObj : Obj := [("id", "t1"), ("firstName", "Alice"), ("lastName", "N"),
  ("email", "a@x"), ("department", "Math")]

/-- Class C1 of the spec's example scenario, taught by T1. -/
def cObj : Obj := [("id", "c1"), ("name", "Algebra I"), ("code", "MATH101"),
  ("teacherId", "t1"), ("schedule", "MWF")]

/-- Student S1 of the spec's example scenario. -/
def sObj : Obj := [("id", "s1"), ("firstName", "Liam"), ("lastName", "J"),
  ("grade", "3"), ("dob", "2010-01-15"), ("email", "")]

/-- Enrollment E1 of the spec's example scenario. -/
def eObj : Obj := [("id", "e1"), ("studentId", "s1"), ("classId", "c1"),
  ("status", "enrolled")]

/-- The seeded snapshot of the spec's example scenario. -/
def sampleSnap : Snapshot :=
  { version := "1.0.0", students := [sObj], teachers := [tObj],
    classes := [cObj], enrollments := [eObj], theme := "dark" }

/-! ### Helper: Bool-level negated equality test -/

theorem bool_not_beq_eq_decide_ne (a b : Option String) :
    (!(a == b)) = decide (¬ a = b) := by
  by_cases h : a = b
  · simp [h]
  · simp [h]

theorem clearTeacher_eq_ite (id : String) (c : Obj) :
    clearTeacher id c
      = if getField c "teacherId" = some id then setField c "teacherId" "" else c := by
  unfold clearTeacher
  by_cases h : getField c "teacherId" = some id
  · simp [h]
  · simp [h]

/-! ### Claim theorems -/

/-- C2: `Data.remove` applies exactly the cascade rules: removing a teacher
clears `teacherId` to `""` on exactly the classes whose `teacherId` equals
the removed id (other classes and the other collections untouched); removing
a student deletes exactly the enrollments with that `studentId`; removing a
class deletes exactly the enrollments with that `classId`; removing an
enrollment touches nothing but the enrollments collection itself. -/
theorem C2_remove_cascade_rules (s : Snapshot) (id : String) :
    ((removeOp s .teachers id).1.classes
        = s.classes.map (fun c =>
            if getField c "teacherId" = some id then setField c "teacherId" "" else c)
      ∧ (removeOp s .teachers id).1.students = s.students
      ∧ (removeOp s .teachers id).1.enrollments = s.enrollments)
    ∧ ((removeOp s .students id).1.enrollments
        = s.enrollments.filter (fun e => decide (¬ getField e "studentId" = some id))
      ∧ (removeOp s .students id).1.classes = s.classes
      ∧ (removeOp s .students id).1.teachers = s.teachers)
    ∧ ((removeOp s .classes id).1.enrollments
        = s.enrollments.filter (fun e => decide (¬ getField e "classId" = some id))
      ∧ (removeOp s .classes id).1.students = s.students
      ∧ (removeOp s .classes id).1.teachers = s.teachers)
    ∧ ((removeOp s .enrollments id).1.students = s.students
      ∧ (removeOp s .enrollments id).1.teachers = s.teachers
      ∧ (removeOp s .enrollments id).1.classes = s.classes
      ∧ (removeOp s .enrollments id).1.enrollments
          = s.enrollments.filter (fun e => decide (¬ getField e "id" = some id))) := by
  refine ⟨⟨?_, rfl, rfl⟩, ⟨?_, rfl, rfl⟩, ⟨?_, rfl, rfl⟩, rfl, rfl, rfl, ?_⟩
  · show s.classes.map (clearTeacher id) = _
    exact List.map_congr_left fun c _ => clearTeacher_eq_ite id c
  · show s.enrollments.filter (fun e => !(getField e "studentId" == some id)) = _
    exact List.filter_congr fun e _ => bool_not_beq_eq_decide_ne _ _
  · show s.enrollments.filter (fun e => !(getField e "classId" == some id)) = _
    exact List.filter_congr fun e _ => bool_not_beq_eq_decide_ne _ _
  · show s.enrollments.filter (fun e => !(getField e "id" == some id)) = _
    exact List.filter_congr fun e _ => bool_not_beq_eq_decide_ne _ _

/-- C3: `Data.update` on a hit replaces the (first, and with unique ids the
only) record carrying the id by the spread merge `{...record, ...upd}`,
leaving every other record and the order untouched; each field named in the
patch takes the patch's value and each unnamed field keeps its old value;
on a miss the whole state is untouched and no error is possible (the
operation is a total function). -/
theorem C3_update_semantics (s : Snapshot) (k : EntityKind) (id : String)
    (upd : Obj) :
    (∀ pre r post, getColl s k = pre ++ r :: post →
      getField r "id" = some id →
      (∀ r' ∈ pre, getField r' "id" ≠ some id) →
      getColl (updateOp s k id upd).1 k = pre ++ spread r upd :: post)
    ∧ ((upd.map Prod.fst).Nodup → ∀ r : Obj,
        (∀ f v, (f, v) ∈ upd → getField (spread r upd) f = some v)
        ∧ (∀ f, f ∉ upd.map Prod.fst → getField (spread r upd) f = getField r f))
    ∧ ((∀ r ∈ getColl s k, getField r "id" ≠ some id) →
        (updateOp s k id upd).1 = s ∧ (updateOp s k id upd).2 = []) := by
  refine ⟨?_, ?_, ?_⟩
  · intro pre r post hsplit hr hpre
    have hmem : r ∈ getColl s k := by
      rw [hsplit]; exact List.mem_append_right _ (List.mem_cons_self _ _)
    have hany : (getColl s k).any (fun r => getField r "id" == some id) = true := by
      rw [List.any_eq_true]
      exact ⟨r, hmem, by simp [hr]⟩
    unfold updateOp
    rw [if_pos hany]
    rw [getColl_setColl_self, hsplit]
    exact updateColl_hit id upd pre post r hr hpre
  · intro hnd r
    exact ⟨fun f v hm => spread_getField_mem upd r f v hnd hm,
      fun f hf => spread_getField_not_mem upd r f hf⟩
  · intro hmiss
    have hany : ¬ (getColl s k).any (fun r => getField r "id" == some id) = true := by
      rw [List.any_eq_true]
      rintro ⟨r, hm, hid⟩
      exact hmiss r hm (by simpa using hid)
    unfold updateOp
    rw [if_neg hany]
    exact ⟨rfl, rfl⟩

/-- Witness for C3 at the seeded scenario: updating student `s1` with a
patch `grade := "4"` replaces it by the merged record (patched field new,
untouched field retained); updating a nonexistent id leaves the snapshot
unchanged and performs no save. -/
theorem C3_update_semantics_witness :
    getColl (updateOp sampleSnap .students "s1" [("grade", "4")]).1 .students
        = [spread sObj [("grade", "4")]]
    ∧ getField (spread sObj [("grade", "4")]) "grade" = some "4"
    ∧ getField (spread sObj [("grade", "4")]) "firstName" = some "Liam"
    ∧ (updateOp sampleSnap .students "ghost" [("grade", "4")]).1 = sampleSnap
    ∧ (updateOp sampleSnap .students "ghost" [("grade", "4")]).2 = [] := by
  obtain ⟨h1, h2, -⟩ := C3_update_semantics sampleSnap .students "s1" [("grade", "4")]
  obtain ⟨-, -, h3⟩ := C3_update_semantics sampleSnap .students "ghost" [("grade", "4")]
  have hhit := h1 [] sObj [] rfl (by decide) (fun r' hr' => by simp at hr')
  have hmerge := h2 (by decide) sObj
  have hnm : ∀ r ∈ getColl sampleSnap .students, getField r "id" ≠ some "ghost" := by
    intro r hr
    have hr' : r = sObj := by simpa [getColl, sampleSnap] using hr
    subst hr'
    decide
  have hmiss := h3 hnm
  refine ⟨by simpa using hhit, hmerge.1 "grade" "4" (by simp), ?_, hmiss.1, hmiss.2⟩
  rw [hmerge.2 "firstName" (by decide)]
  decide

theorem getField_clearTeacher_id (id : String) (c : Obj) :
    getField (clearTeacher id c) "id" = getField c "id" := by
  unfold clearTeacher
  by_cases h : (getField c "teacherId" == some id) = true
  · rw [if_pos h]
    exact getField_setField_ne c "teacherId" "" "id" (by decide)
  · rw [if_neg h]

/-- C1 counterexample: `Data.add` performs no validation, so adding an
enrollment whose `studentId` names no student turns a referentially intact
snapshot into a broken one — the claimed invariant fails for `add`. -/
theorem C1_add_breaks_integrity_counterexample :
    refIntegrity sampleSnap
    ∧ ¬ refIntegrity (addOp sampleSnap .enrollments
        [("id", "e2"), ("studentId", "ghost"), ("classId", "c1")]).1 := by
  constructor
  · decide
  · decide

/-- C1 amended: referential integrity of enrollments is preserved by
`Data.remove` for every entity kind and id (the cascades do exactly enough
pruning); `add` and `update` preserve it only when their arguments do not
themselves introduce dangling references. -/
theorem C1_remove_preserves_integrity (s : Snapshot) (k : EntityKind)
    (id : String) (h : refIntegrity s) : refIntegrity (removeOp s k id).1 := by
  cases k
  case students =>
    intro e he
    have he' : e ∈ s.enrollments.filter
        (fun e => !(getField e "studentId" == some id)) := he
    rw [List.mem_filter] at he'
    obtain ⟨hmem, hkeep⟩ := he'
    obtain ⟨⟨sid, hsid, st, hst, hstid⟩, cid, hcid, c, hc, hcid2⟩ := h e hmem
    constructor
    · refine ⟨sid, hsid, st, ?_, hstid⟩
      show st ∈ s.students.filter (fun r => !(getField r "id" == some id))
      rw [List.mem_filter]
      refine ⟨hst, ?_⟩
      have hne : sid ≠ id := by
        intro hh
        subst hh
        rw [hsid] at hkeep
        simp at hkeep
      simp [hstid, hne]
    · exact ⟨cid, hcid, c, hc, hcid2⟩
  case teachers =>
    intro e he
    have hmem : e ∈ s.enrollments := he
    obtain ⟨hstu, cid, hcid, c, hc, hcid2⟩ := h e hmem
    refine ⟨hstu, cid, hcid, clearTeacher id c, ?_, ?_⟩
    · show clearTeacher id c ∈ s.classes.map (clearTeacher id)
      exact List.mem_map_of_mem _ hc
    · rw [getField_clearTeacher_id]
      exact hcid2
  case classes =>
    intro e he
    have he' : e ∈ s.enrollments.filter
        (fun e => !(getField e "classId" == some id)) := he
    rw [List.mem_filter] at he'
    obtain ⟨hmem, hkeep⟩ := he'
    obtain ⟨hstu, cid, hcid, c, hc, hcid2⟩ := h e hmem
    refine ⟨hstu, cid, hcid, c, ?_, hcid2⟩
    show c ∈ s.classes.filter (fun r => !(getField r "id" == some id))
    rw [List.mem_filter]
    refine ⟨hc, ?_⟩
    have hne : cid ≠ id := by
      intro hh
      subst hh
      rw [hcid] at hkeep
      simp at hkeep
    simp [hcid2, hne]
  case enrollments =>
    intro e he
    have he' : e ∈ s.enrollments.filter
        (fun r => !(getField r "id" == some id)) := he
    exact h e (List.mem_of_mem_filter he')

/-- Witness for the amended C1: on the seeded scenario, removing student
`s1` (which cascades away enrollment `e1`) keeps integrity. -/
theorem C1_remove_preserves_integrity_witness :
    refIntegrity sampleSnap
    ∧ refIntegrity (removeOp sampleSnap .students "s1").1 :=
  ⟨by decide, C1_remove_preserves_integrity sampleSnap .students "s1" (by decide)⟩

/-- C4 counterexample: `Data.update` on a non-existent id performs no save
at all (the `save` call sits inside the `if (idx >= 0)` branch), so it is a
mutating repository operation whose save trace is empty, not a single
save. -/
theorem C4_update_miss_no_save_counterexample :
    (updateOp sampleSnap .students "ghost" [("grade", "4")]).2 = []
    ∧ (updateOp sampleSnap .students "ghost" [("grade", "4")]).2.length ≠ 1 := by
  constructor
  · rfl
  · decide

/-- C4 amended: every mutating repository operation performs at most one
full synchronous save before returning, and the saved snapshot is exactly
the final in-memory snapshot: `add` and `remove` always save exactly once
(`remove` saving the post-cascade state as one unit, and still saving when
the removal is a no-op on the collections), while `update` saves exactly
once on a hit but performs no save on a miss — where it also leaves the
snapshot unchanged, so the persisted state still equals the in-memory
state. -/
theorem C4_single_save_semantics (s : Snapshot) (k : EntityKind)
    (id : String) (item upd : Obj) :
    (addOp s k item).2 = [(addOp s k item).1]
    ∧ (removeOp s k id).2 = [(removeOp s k id).1]
    ∧ ((removeOp s k id).1 = s → (removeOp s k id).2 = [s])
    ∧ ((getColl s k).any (fun r => getField r "id" == some id) = true →
        (updateOp s k id upd).2 = [(updateOp s k id upd).1])
    ∧ (¬ (getColl s k).any (fun r => getField r "id" == some id) = true →
        (updateOp s k id upd).2 = [] ∧ (updateOp s k id upd).1 = s) := by
  refine ⟨rfl, ?_, ?_, ?_, ?_⟩
  · cases k <;> rfl
  · intro hnoop
    have h2 : (removeOp s k id).2 = [(removeOp s k id).1] := by cases k <;> rfl
    rw [h2, hnoop]
  · intro hhit
    unfold updateOp
    rw [if_pos hhit]
  · intro hmiss
    unfold updateOp
    rw [if_neg hmiss]
    exact ⟨rfl, rfl⟩

/-- Witness for the amended C4 on the seeded scenario: `add` and a hitting
`update` save exactly once; a missing `update` saves nothing and changes
nothing; `remove` of an id present nowhere is a no-op that still saves the
(unchanged) snapshot. -/
theorem C4_single_save_semantics_witness :
    (addOp sampleSnap .students [("id", "s2")]).2
        = [(addOp sampleSnap .students [("id", "s2")]).1]
    ∧ (updateOp sampleSnap .students "s1" [("grade", "4")]).2
        = [(updateOp sampleSnap .students "s1" [("grade", "4")]).1]
    ∧ (updateOp sampleSnap .students "ghost" [("grade", "4")]).2 = []
    ∧ (updateOp sampleSnap .students "ghost" [("grade", "4")]).1 = sampleSnap
    ∧ (removeOp sampleSnap .teachers "ghost").2 = [sampleSnap] := by
  obtain ⟨ha, -, hnoop, hhit, -⟩ :=
    C4_single_save_semantics sampleSnap .students "s1" [("id", "s2")] [("grade", "4")]
  obtain ⟨-, -, -, -, hmiss⟩ :=
    C4_single_save_semantics sampleSnap .students "ghost" [("id", "s2")] [("grade", "4")]
  obtain ⟨-, -, hnoop2, -, -⟩ :=
    C4_single_save_semantics sampleSnap .teachers "ghost" [("id", "s2")] [("grade", "4")]
  have hm := hmiss (by decide)
  exact ⟨ha, hhit (by decide), hm.1, hm.2, hnoop2 (by decide)⟩

/-! ### Query engine: filterByTerm -/

/-- `String.prototype.toLowerCase`, charwise (`Char.toLower` lowers exactly
the ASCII uppercase letters; the data of this app is ASCII). -/
def lowerStr (s : String) : String := String.mk (s.data.map Char.toLower)

/-- `hay.startsWith(needle)` on char lists. -/
def startsWithL : List Char → List Char → Bool
  | _, [] => true
  | [], _ :: _ => false
  | h :: t, nh :: nt => (h == nh) && startsWithL t nt

/-- `hay.includes(needle)` on char lists: some suffix starts with the
needle. -/
def containsSub (needle : List Char) : List Char → Bool
  | [] => startsWithL [] needle
  | h :: t => startsWithL (h :: t) needle || containsSub needle t

/-- JS `hay.includes(needle)` on strings. -/
def strIncludes (hay needle : String) : Bool := containsSub needle.data hay.data

/-- A field selector passed to `filterByTerm`: either a field name or a
computed accessor (e.g. the full-name concatenation used for enrollments). -/
inductive FieldSpec where
  | name (f : String)
  | comp (f : Obj → String)

/-- `String(getter(item, f))` of the source: named fields read `item[f] ?? ''`,
computed fields apply the accessor; values are strings already, so the
`String(...)` conversion is the identity. -/
def fieldString (item : Obj) : FieldSpec → String
  | .name f => (getField item f).getD ""
  | .comp f => f item

/-- `filterByTerm(list, term, fields)`: empty term returns the list itself;
otherwise keeps the records for which some field's lowercased string
contains the lowercased term. -/
def filterByTerm (l : List Obj) (term : String) (fields : List FieldSpec) :
    List Obj :=
  if term = "" then l
  else
    let lower := lowerStr term
    l.filter (fun item =>
      fields.any (fun f => strIncludes (lowerStr (fieldString item f)) lower))

/-- The claim's notion of a record matching a term: at least one named or
computed field's string representation contains the term as a
case-insensitive substring. -/
def matchesTerm (term : String) (fields : List FieldSpec) (item : Obj) : Prop :=
  ∃ f ∈ fields, strIncludes (lowerStr (fieldString item f)) (lowerStr term) = true

instance (term : String) (fields : List FieldSpec) (item : Obj) :
    Decidable (matchesTerm term fields item) := by
  unfold matchesTerm; infer_instance

theorem any_eq_decide {α : Type} (l : List α) (g : α → Bool) :
    l.any g = decide (∃ x ∈ l, g x = true) := by
  by_cases h : ∃ x ∈ l, g x = true
  · rw [decide_eq_true h, List.any_eq_true.mpr h]
  · have hfalse : l.any g = false := by
      cases hb : l.any g
      · rfl
      · exact absurd (List.any_eq_true.mp hb) h
    rw [hfalse, decide_eq_false h]

/-- C8: `filterByTerm` with the empty term is the identity; with a non-empty
term it returns exactly the in-order sublist of records matching some field
case-insensitively, so a term matching nothing yields `[]`. -/
theorem C8_filterByTerm_semantics (l : List Obj) (term : String)
    (fields : List FieldSpec) :
    filterByTerm l "" fields = l
    ∧ (term ≠ "" → filterByTerm l term fields
        = l.filter (fun item => decide (matchesTerm term fields item)))
    ∧ (term ≠ "" → (∀ item ∈ l, ¬ matchesTerm term fields item) →
        filterByTerm l term fields = []) := by
  have hfilter : term ≠ "" → filterByTerm l term fields
      = l.filter (fun item => decide (matchesTerm term fields item)) := by
    intro hne
    unfold filterByTerm
    rw [if_neg hne]
    refine List.filter_congr fun item _ => ?_
    rw [any_eq_decide]
    rfl
  refine ⟨rfl, hfilter, fun hne hnone => ?_⟩
  rw [hfilter hne]
  rw [List.filter_eq_nil_iff]
  intro item hitem
  simp only [decide_eq_true_eq]
  exact hnone item hitem

/-- Witness for C8 on the seeded student record: empty term is the
identity, a matching term keeps the record, a hopeless term yields `[]`. -/
theorem C8_filterByTerm_semantics_witness :
    filterByTerm [sObj] "" [FieldSpec.name "firstName"] = [sObj]
    ∧ filterByTerm [sObj] "LIA" [FieldSpec.name "firstName"] = [sObj]
    ∧ filterByTerm [sObj] "zzz-no-match" [FieldSpec.name "firstName"] = [] := by
  obtain ⟨h0, h1, -⟩ :=
    C8_filterByTerm_semantics [sObj] "LIA" [FieldSpec.name "firstName"]
  obtain ⟨-, -, h2⟩ :=
    C8_filterByTerm_semantics [sObj] "zzz-no-match" [FieldSpec.name "firstName"]
  refine ⟨h0, ?_, ?_⟩
  · rw [h1 (by decide)]
    decide
  · refine h2 (by decide) ?_
    intro item hitem
    have hi : item = sObj := by simpa using hitem
    subst hi
    decide

/-! ### Query engine: sortBy -/

/-- The sort key getter `(x) => x[key] ?? ''` (absent and `undefined` keys
read as the empty string); the `String(...)` wrapper is the identity on
these string-valued records. -/
def sortKeyOf (key : String) (r : Obj) : String := (getField r key).getD ""

/-- `sortBy(list, key)`: `deepClone(list).sort((a,b) =>
String(getter(a)).localeCompare(String(getter(b))))`.  `localeCompare` is a
host-locale dependent consistent comparator, so it is embedded as a
comparator parameter `cmp`; `deepClone` is the value identity on these
JSON-pure records; ECMAScript specifies `Array.prototype.sort` only up to
being a stable sort consistent with the comparator, which `List.mergeSort`
realises. -/
def sortBy (cmp : String → String → Int) (l : List Obj) (key : String) :
    List Obj :=
  l.mergeSort (fun a b => decide (cmp (sortKeyOf key a) (sortKeyOf key b) ≤ 0))

/-- A concrete consistent comparator (lexicographic), standing in for the
host's `localeCompare` in witnesses. -/
def strCmp (a b : String) : Int := if a < b then -1 else if b < a then 1 else 0

theorem strCmp_le_iff (a b : String) : strCmp a b ≤ 0 ↔ a ≤ b := by
  unfold strCmp
  by_cases h1 : a < b
  · simp only [h1, if_true]
    exact ⟨fun _ => le_of_lt h1, fun _ => by norm_num⟩
  · by_cases h2 : b < a
    · simp only [h1, if_false, h2, if_true]
      constructor
      · intro hc; norm_num at hc
      · intro hab; exact absurd h2 (not_lt_of_le hab)
    · simp only [h1, if_false, h2]
      exact ⟨fun _ => le_of_not_lt h2, fun _ => le_refl 0⟩

theorem strCmp_trans (a b c : String) (h1 : strCmp a b ≤ 0) (h2 : strCmp b c ≤ 0) :
    strCmp a c ≤ 0 :=
  (strCmp_le_iff a c).mpr (le_trans ((strCmp_le_iff a b).mp h1)
    ((strCmp_le_iff b c).mp h2))

theorem strCmp_total (a b : String) : strCmp a b ≤ 0 ∨ strCmp b a ≤ 0 := by
  rcases le_total a b with h | h
  · exact Or.inl ((strCmp_le_iff a b).mpr h)
  · exact Or.inr ((strCmp_le_iff b a).mpr h)

/-- C9: for every consistent comparator (transitive and total on the ≤-0
relation, as ECMAScript requires of a sort comparator and `localeCompare`
provides), `sortBy` returns a permutation of its input ordered by the
comparator on the string keys, is stable (records with equal-comparing keys
keep their input order), and reads an absent key as the empty string; the
input list value itself is untouched (the embedding is pure, matching
`deepClone` + sort-on-the-clone). -/
theorem C9_sortBy_properties (cmp : String → String → Int) (l : List Obj)
    (key : String)
    (htr : ∀ a b c, cmp a b ≤ 0 → cmp b c ≤ 0 → cmp a c ≤ 0)
    (hto : ∀ a b, cmp a b ≤ 0 ∨ cmp b a ≤ 0) :
    (sortBy cmp l key).Perm l
    ∧ (sortBy cmp l key).Pairwise
        (fun a b => cmp (sortKeyOf key a) (sortKeyOf key b) ≤ 0)
    ∧ (∀ a b, [a, b].Sublist l → cmp (sortKeyOf key a) (sortKeyOf key b) = 0 →
        [a, b].Sublist (sortBy cmp l key))
    ∧ (∀ r, getField r key = none → sortKeyOf key r = "") := by
  have htrB : ∀ a b c : Obj,
      decide (cmp (sortKeyOf key a) (sortKeyOf key b) ≤ 0) = true →
      decide (cmp (sortKeyOf key b) (sortKeyOf key c) ≤ 0) = true →
      decide (cmp (sortKeyOf key a) (sortKeyOf key c) ≤ 0) = true := by
    intro a b c h1 h2
    simp only [decide_eq_true_eq] at h1 h2 ⊢
    exact htr _ _ _ h1 h2
  have htoB : ∀ a b : Obj,
      (decide (cmp (sortKeyOf key a) (sortKeyOf key b) ≤ 0)
        || decide (cmp (sortKeyOf key b) (sortKeyOf key a) ≤ 0)) = true := by
    intro a b
    rcases hto (sortKeyOf key a) (sortKeyOf key b) with h | h
    · simp [h]
    · simp [h]
  refine ⟨List.mergeSort_perm l _, ?_, ?_, ?_⟩
  · have hs := List.sorted_mergeSort htrB htoB l
    exact hs.imp (fun h => by simpa using h)
  · intro a b hsub heq
    refine List.pair_sublist_mergeSort htrB htoB ?_ hsub
    simp only [decide_eq_true_eq]
    rw [heq]
  · intro r hr
    unfold sortKeyOf
    rw [hr]
    rfl

/-- Witness for C9 with the lexicographic comparator: sorting the seeded
teacher and student by last name permutes and orders them, a pair with
equal keys keeps its order, and a record without the key sorts as `""`. -/
theorem C9_sortBy_properties_witness :
    (sortBy strCmp [tObj, sObj] "lastName").Perm [tObj, sObj]
    ∧ [tObj, eObj].Sublist (sortBy strCmp [tObj, sObj, eObj] "grade")
    ∧ sortKeyOf "lastName" [("id", "x")] = "" := by
  obtain ⟨hp, -, -, -⟩ :=
    C9_sortBy_properties strCmp [tObj, sObj] "lastName" strCmp_trans strCmp_total
  obtain ⟨-, -, hs, hk⟩ :=
    C9_sortBy_properties strCmp [tObj, sObj, eObj] "grade" strCmp_trans strCmp_total
  refine ⟨hp, hs tObj eObj ?_ ?_, hk [("id", "x")] (by decide)⟩
  · exact ((List.nil_sublist []).cons₂ eObj).cons sObj |>.cons₂ tObj
  · have ht : sortKeyOf "grade" tObj = "" := by decide
    have he : sortKeyOf "grade" eObj = "" := by decide
    rw [ht, he]
    unfold strCmp
    rw [if_neg (lt_irrefl _), if_neg (lt_irrefl _)]

/-! ### Query engine: groupBy and the teacher-load report -/

/-- One step of `groupBy`'s reduce: `acc[key] ||= []; acc[key].push(item)`.
The group list keeps JS object key insertion order (the ids grouped on here
are non-integer-like strings, for which JS objects preserve insertion
order). -/
def insertGroup (key : String) (a : Obj) :
    List (String × List Obj) → List (String × List Obj)
  | [] => [(key, [a])]
  | (k', l) :: rest =>
    if k' == key then (k', l ++ [a]) :: rest
    else (k', l) :: insertGroup key a rest

/-- `groupBy(list, keyFn)` followed by `Object.entries`. -/
def groupByKey (l : List Obj) (key : Obj → String) : List (String × List Obj) :=
  l.foldl (fun acc a => insertGroup (key a) a acc) []

/-- The grouping key of the teacher-load report:
`c.teacherId || 'Unassigned'` (an absent or empty `teacherId` is falsy). -/
def teacherKey (c : Obj) : String :=
  match getField c "teacherId" with
  | none => "Unassigned"
  | some t => if t = "" then "Unassigned" else t

/-- The row label of the teacher-load report: resolve the group key against
the teachers collection, falling back to `'Unassigned'` (a template literal
renders an absent name field as the string `"undefined"`). -/
def teacherLabel (s : Snapshot) (tid : String) : String :=
  match s.teachers.find? (fun t => getField t "id" == some tid) with
  | some t => ((getField t "firstName").getD "undefined") ++ " "
      ++ ((getField t "lastName").getD "undefined")
  | none => "Unassigned"

/-- The teacher-load report (`UI.renderReportOutput('teacherLoad')`) as its
list of `(label, class count)` rows. -/
def teacherLoadReport (s : Snapshot) : List (String × Nat) :=
  (groupByKey s.classes teacherKey).map (fun g => (teacherLabel s g.1, g.2.length))

/-- The spec scenario state after removing teacher `t1`. -/
def afterRemoveTeacher : Snapshot := (removeOp sampleSnap .teachers "t1").1

/-- The spec scenario state after then removing class `c1`. -/
def afterRemoveClass : Snapshot := (removeOp afterRemoveTeacher .classes "c1").1

/-- Invariant tying groups to their key: every group of a grouping is
nonempty and holds exactly elements bearing its key. -/
def GroupsOk (key : Obj → String) (gs : List (String × List Obj)) : Prop :=
  ∀ p ∈ gs, p.2 ≠ [] ∧ ∀ c ∈ p.2, key c = p.1

theorem groupsOk_insert (key : Obj → String) (a : Obj)
    (gs : List (String × List Obj)) (h : GroupsOk key gs) :
    GroupsOk key (insertGroup (key a) a gs) := by
  induction gs with
  | nil =>
    intro p hp
    simp only [insertGroup, List.mem_singleton] at hp
    subst hp
    exact ⟨by simp, by simp⟩
  | cons q rest ih =>
    obtain ⟨k', l⟩ := q
    by_cases hk : (k' == key a) = true
    · intro p hp
      simp only [insertGroup, hk, if_pos] at hp
      rcases List.mem_cons.mp hp with hh | ht
      · subst hh
        have hk' : k' = key a := by simpa using hk
        refine ⟨by simp, ?_⟩
        intro c hc
        rcases List.mem_append.mp hc with hcl | hca
        · exact (h (k', l) (List.mem_cons_self _ _)).2 c hcl
        · have : c = a := by simpa using hca
          subst this
          exact hk'.symm
      · exact h p (List.mem_cons_of_mem _ ht)
    · intro p hp
      simp only [insertGroup, hk, Bool.false_eq_true, if_neg] at hp
      rcases List.mem_cons.mp hp with hh | ht
      · subst hh
        exact h (k', l) (List.mem_cons_self _ _)
      · exact ih (fun q hq => h q (List.mem_cons_of_mem _ hq)) p ht

theorem groupsOk_groupByKey (l : List Obj) (key : Obj → String) :
    GroupsOk key (groupByKey l key) := by
  suffices hgen : ∀ (acc : List (String × List Obj)), GroupsOk key acc →
      GroupsOk key (l.foldl (fun acc a => insertGroup (key a) a acc) acc) by
    exact hgen [] (fun p hp => absurd hp (List.not_mem_nil p))
  induction l with
  | nil => intro acc hacc; exact hacc
  | cons a rest ih =>
    intro acc hacc
    exact ih _ (groupsOk_insert key a acc hacc)

/-- C7 counterexample: in the spec's seeded scenario, after removing teacher
`t1` and then class `c1`, the classes collection is empty, so the
teacher-load report has no rows at all — it does not show an "Unassigned"
row with class count 0 as the claim asserts. -/
theorem C7_report_counterexample :
    teacherLoadReport afterRemoveClass = []
    ∧ ("Unassigned", 0) ∉ teacherLoadReport afterRemoveClass := by
  constructor
  · rfl
  · intro hmem
    rw [show teacherLoadReport afterRemoveClass = [] from rfl] at hmem
    simp at hmem

/-- C7 amended: the teacher-load report groups classes by
`teacherId || 'Unassigned'` (empty or absent teacher ids bucket under
"Unassigned"), labels a group "Unassigned" whenever its key resolves to no
existing teacher, and every row counts a nonempty group, so a zero-count
row can never appear; in the seeded scenario, after removing `t1` the
report is a single row `("Unassigned", 1)`, and after also removing `c1`
there are no classes left and the report is empty rather than showing
`("Unassigned", 0)`. -/
theorem C7_teacher_load_semantics (s : Snapshot) :
    (∀ p ∈ groupByKey s.classes teacherKey,
      p.2 ≠ [] ∧ ∀ c ∈ p.2, teacherKey c = p.1)
    ∧ (∀ c : Obj, getField c "teacherId" = some "" ∨ getField c "teacherId" = none →
        teacherKey c = "Unassigned")
    ∧ (∀ tid : String, (∀ t ∈ s.teachers, getField t "id" ≠ some tid) →
        teacherLabel s tid = "Unassigned")
    ∧ (∀ row ∈ teacherLoadReport s, 0 < row.2)
    ∧ teacherLoadReport afterRemoveTeacher = [("Unassigned", 1)]
    ∧ teacherLoadReport afterRemoveClass = [] := by
  refine ⟨groupsOk_groupByKey s.classes teacherKey, ?_, ?_, ?_, rfl, rfl⟩
  · intro c hc
    rcases hc with h | h
    · simp [teacherKey, h]
    · simp [teacherKey, h]
  · intro tid hnone
    unfold teacherLabel
    have hfind : s.teachers.find? (fun t => getField t "id" == some tid) = none := by
      rw [List.find?_eq_none]
      intro t ht
      simpa using hnone t ht
    rw [hfind]
  · intro row hrow
    unfold teacherLoadReport at hrow
    rw [List.mem_map] at hrow
    obtain ⟨g, hg, hrow⟩ := hrow
    have hne := (groupsOk_groupByKey s.classes teacherKey g hg).1
    rw [← hrow]
    simpa [List.length_pos] using hne

/-- Witness for the amended C7: concrete instances of the bucketing rule,
the label fallback, and the positive row counts, on the post-removal
scenario state. -/
theorem C7_teacher_load_semantics_witness :
    teacherKey (clearTeacher "t1" cObj) = "Unassigned"
    ∧ teacherLabel afterRemoveTeacher "Unassigned" = "Unassigned"
    ∧ (0 : Nat) < 1
    ∧ teacherLoadReport afterRemoveTeacher = [("Unassigned", 1)] := by
  obtain ⟨-, hbucket, hlabel, hpos, hrep, -⟩ :=
    C7_teacher_load_semantics afterRemoveTeacher
  refine ⟨hbucket _ (Or.inl (by decide)), hlabel "Unassigned" ?_, ?_, hrep⟩
  · intro t ht
    have hempty : afterRemoveTeacher.teachers = [] := by decide
    rw [hempty] at ht
    simp at ht
  · exact hpos ("Unassigned", 1) (by rw [hrep]; exact List.mem_singleton.mpr rfl)

/-! ### CSV parsing (`parseCSV`, `camel`) -/

/-- ASCII whitespace trimmed by `String.prototype.trim` (the data of this
app contains no exotic Unicode whitespace). -/
def isWsChar (c : Char) : Bool :=
  (c == ' ') || (c == '\t') || (c == '\n') || (c == '\r')

/-- `s.trim()` on char lists. -/
def trimL (cs : List Char) : List Char :=
  ((cs.dropWhile isWsChar).reverse.dropWhile isWsChar).reverse

/-- `s.trim()` on strings. -/
def trimS (s : String) : String := String.mk (trimL s.data)

/-- `csvText.split(/\r?\n/)`: a `\r\n` pair or a lone `\n` separates
lines; a lone `\r` does not. -/
def splitLinesJS : List Char → List (List Char)
  | [] => [[]]
  | '\r' :: '\n' :: rest => [] :: splitLinesJS rest
  | '\n' :: rest => [] :: splitLinesJS rest
  | c :: rest =>
    match splitLinesJS rest with
    | [] => [[c]]
    | l :: ls => (c :: l) :: ls

/-- `line.split(',')` (the header row is split on every comma, with no
quote handling — exactly as the source does). -/
def splitCommaL : List Char → List (List Char)
  | [] => [[]]
  | ',' :: rest => [] :: splitCommaL rest
  | c :: rest =>
    match splitCommaL rest with
    | [] => [[c]]
    | l :: ls => (c :: l) :: ls

/-- Scanner state of `parseCSV`'s per-line loop.  The source keeps a Bool
`inQuotes` and peeks one character ahead for the doubled-quote case; that
two-character step is refactored into a one-character step with a third
state `qseen` = "inside quotes and the previous character was a quote":
`qseen` + `"` is the doubled-quote case (emit one literal quote, stay
inside), while `qseen` + anything else means the quote had toggled
`inQuotes` off and the character is processed outside quotes. -/
inductive QState where
  | outside | inside | qseen
deriving DecidableEq, Repr

/-- The per-line cell scanner of `parseCSV`: a double quote toggles the
in-quotes flag, a doubled double quote inside quotes emits one literal
quote, a comma outside quotes ends the cell, anything else is appended. -/
def parseCells : List Char → QState → List Char → List (List Char) →
    List (List Char)
  | [], _, cur, cells => cells ++ [cur]
  | c :: rest, st, cur, cells =>
    match st with
    | .outside =>
      if c = '"' then parseCells rest .inside cur cells
      else if c = ',' then parseCells rest .outside [] (cells ++ [cur])
      else parseCells rest .outside (cur ++ [c]) cells
    | .inside =>
      if c = '"' then parseCells rest .qseen cur cells
      else parseCells rest .inside (cur ++ [c]) cells
    | .qseen =>
      if c = '"' then parseCells rest .inside (cur ++ ['"']) cells
      else if c = ',' then parseCells rest .outside [] (cells ++ [cur])
      else parseCells rest .outside (cur ++ [c]) cells

/-- `a-z` or `A-Z` (the `[a-zA-Z]` character class of `camel`). -/
def isLetterChar (c : Char) : Bool :=
  ('a' ≤ c && c ≤ 'z') || ('A' ≤ c && c ≤ 'Z')

/-- `[a-zA-Z0-9]` (the complement of `camel`'s second character class). -/
def isAlnumChar (c : Char) : Bool := isLetterChar c || ('0' ≤ c && c ≤ '9')

/-- Replace every maximal run of non-alphanumeric characters by a single
space (the global `[^a-zA-Z0-9]+ -> ' '` part of `camel`'s first regex);
the flag records being inside such a run. -/
def collapseRunsAux : Bool → List Char → List Char
  | _, [] => []
  | inRun, c :: rest =>
    if isAlnumChar c then c :: collapseRunsAux false rest
    else if inRun then collapseRunsAux true rest
    else ' ' :: collapseRunsAux true rest

/-- `camel`'s first regex replacement: the anchored alternative
`^[^a-zA-Z]+` turns a leading run of non-letters into one space, after
which every run of non-alphanumerics becomes one space. -/
def camelRegexReplace (cs : List Char) : List Char :=
  if cs.takeWhile (fun c => !isLetterChar c) = [] then collapseRunsAux false cs
  else ' ' :: collapseRunsAux false (cs.dropWhile (fun c => !isLetterChar c))

/-- `camel`'s `/ (.)/g` replacement: a space followed by a character
becomes that character uppercased. -/
def upAfterSpace : List Char → List Char
  | ' ' :: c :: rest => c.toUpper :: upAfterSpace rest
  | c :: rest => c :: upAfterSpace rest
  | [] => []

/-- `camel`'s final `/^(.)/` replacement: lowercase the first character. -/
def lowerFirst : List Char → List Char
  | [] => []
  | c :: rest => c.toLower :: rest

/-- `camel(s)`: normalize a header to a camel-case field name. -/
def camel (s : String) : String :=
  String.mk (lowerFirst (upAfterSpace (trimL (camelRegexReplace s.data))))

/-- The line list of `parseCSV`: split on line breaks, then
`.filter(Boolean)` drops empty strings. -/
def csvLines (t : String) : List (List Char) :=
  (splitLinesJS t.data).filter (fun l => !(l == []))

/-- The trimmed header names of `parseCSV`. -/
def headersOf (t : String) : List String :=
  match csvLines t with
  | [] => []
  | h :: _ => (splitCommaL h).map (fun x => String.mk (trimL x))

/-- One data row of `parseCSV`: scan the cells, then assign
`obj[camel(h)] = cells[idx]?.trim() ?? ''` for each header in order. -/
def csvRow (headers : List String) (line : List Char) : Obj :=
  let cells := (parseCells line .outside [] []).map String.mk
  headers.enum.foldl
    (fun obj p => setField obj (camel p.2) (((cells.get? p.1).map trimS).getD ""))
    []

/-- `parseCSV(csvText)`. -/
def parseCSV (t : String) : List Obj :=
  match csvLines t with
  | [] => []
  | _ :: dataLines => dataLines.map (csvRow (headersOf t))

theorem mem_setField {B : Type} (r : List (String × B)) (k : String) (v : B) (kv : String × B)
    (h : kv ∈ setField r k v) : kv = (k, v) ∨ kv ∈ r := by
  induction r with
  | nil =>
    simp only [setField, List.mem_singleton] at h
    exact Or.inl h
  | cons p rest ih =>
    by_cases hp : (p.1 == k) = true
    · rw [show setField (p :: rest) k v
        = (k, v) :: rest from by rw [setField, if_pos hp]] at h
      rcases List.mem_cons.mp h with hh | ht
      · exact Or.inl hh
      · exact Or.inr (List.mem_cons_of_mem p ht)
    · rw [show setField (p :: rest) k v
        = p :: setField rest k v from by rw [setField, if_neg hp]] at h
      rcases List.mem_cons.mp h with hh | ht
      · exact Or.inr (hh ▸ List.mem_cons_self p rest)
      · rcases ih ht with h1 | h2
        · exact Or.inl h1
        · exact Or.inr (List.mem_cons_of_mem p h2)

theorem foldSet_mem (val : Nat × String → String) (ps : List (Nat × String))
    (obj : Obj) (kv : String × String)
    (h : kv ∈ ps.foldl (fun o p => setField o (camel p.2) (val p)) obj) :
    kv ∈ obj ∨ ∃ p ∈ ps, kv.1 = camel p.2 := by
  induction ps generalizing obj with
  | nil => exact Or.inl h
  | cons p rest ih =>
    rcases ih _ h with h1 | h2
    · rcases mem_setField _ _ _ _ h1 with he | ho
      · refine Or.inr ⟨p, List.mem_cons_self p rest, ?_⟩
        rw [he]
      · exact Or.inl ho
    · obtain ⟨q, hq, hkv⟩ := h2
      exact Or.inr ⟨q, List.mem_cons_of_mem p hq, hkv⟩

theorem foldSet_present (val : Nat × String → String)
    (ps : List (Nat × String)) (obj : Obj) (k : String)
    (h : (∃ p ∈ ps, camel p.2 = k) ∨ getField obj k ≠ none) :
    getField (ps.foldl (fun o p => setField o (camel p.2) (val p)) obj) k
      ≠ none := by
  induction ps generalizing obj with
  | nil =>
    rcases h with ⟨p, hp, -⟩ | h
    · exact absurd hp (List.not_mem_nil p)
    · exact h
  | cons p rest ih =>
    refine ih (setField obj (camel p.2) (val p)) ?_
    rcases h with ⟨q, hq, hcam⟩ | hpres
    · rcases List.mem_cons.mp hq with hh | ht
      · subst hh
        refine Or.inr ?_
        rw [← hcam, getField_setField_self]
        exact Option.some_ne_none _
      · exact Or.inl ⟨q, ht, hcam⟩
    · refine Or.inr ?_
      by_cases hk : k = camel p.2
      · rw [hk, getField_setField_self]
        exact Option.some_ne_none _
      · rw [getField_setField_ne _ _ _ _ hk]
        exact hpres

/-- C5 counterexample: `parseCSV` splits the text on line breaks before any
quote processing, so a quoted field containing a line break is torn into
separate records instead of being kept as one field — on
`"a,b\n\"x\ny\",z"` the parser yields two mangled records, not the one
record `{a: "x\ny", b: "z"}` the claim requires. -/
theorem C5_embedded_newline_counterexample :
    parseCSV "a,b\n\"x\ny\",z"
      = [[("a", "x"), ("b", "")], [("a", "y,z"), ("b", "")]]
    ∧ parseCSV "a,b\n\"x\ny\",z" ≠ [[("a", "x\ny"), ("b", "z")]] := by
  constructor
  · rfl
  · decide

/-- C5 amended: every record produced by `parseCSV` is keyed exactly by the
camel-case normalizations of the headers (every key of a record is
`camel` of some header, and every header's camel-case name is present);
quoted fields containing the comma delimiter and doubled double quotes
decoding to one literal quote are handled within a single line — but a
quoted field containing a line break is not kept as one field, because the
text is split on line breaks first; parsing
`"firstName,lastName\nAda,Lovelace"` yields exactly the one record
`{firstName: "Ada", lastName: "Lovelace"}`. -/
theorem C5_parseCSV_semantics :
    (∀ t : String, ∀ r ∈ parseCSV t,
      (∀ kv ∈ r, ∃ h ∈ headersOf t, kv.1 = camel h)
      ∧ (∀ h ∈ headersOf t, getField r (camel h) ≠ none))
    ∧ parseCSV "firstName,lastName\nAda,Lovelace"
        = [[("firstName", "Ada"), ("lastName", "Lovelace")]]
    ∧ parseCSV "a,b\n\"x,y\",z" = [[("a", "x,y"), ("b", "z")]]
    ∧ parseCSV "a\n\"he said \"\"hi\"\"\""
        = [[("a", "he said \"hi\"")]] := by
  refine ⟨?_, rfl, rfl, rfl⟩
  intro t r hr
  have hrow : ∃ line, r = csvRow (headersOf t) line := by
    unfold parseCSV at hr
    rcases hl : csvLines t with - | ⟨h0, dataLines⟩
    · rw [hl] at hr
      exact absurd hr (List.not_mem_nil r)
    · rw [hl] at hr
      obtain ⟨line, -, hline⟩ := List.mem_map.mp hr
      exact ⟨line, hline.symm⟩
  obtain ⟨line, hline⟩ := hrow
  subst hline
  unfold csvRow
  constructor
  · intro kv hkv
    rcases foldSet_mem _ _ _ _ hkv with hin | ⟨p, hp, hcam⟩
    · exact absurd hin (List.not_mem_nil kv)
    · refine ⟨p.2, ?_, hcam⟩
      have := List.mem_enum_iff_get?.mp hp
      exact List.get?_mem this
  · intro h hmem
    refine foldSet_present _ _ _ _ (Or.inl ?_)
    obtain ⟨i, hi⟩ := List.mem_iff_get?.mp hmem
    exact ⟨(i, h), List.mem_enum_iff_get?.mpr hi, rfl⟩

/-- Witness for C5 on the Ada/Lovelace input: the produced record's key
`"firstName"` is the camel form of a header, and both headers' camel names
are present in the record. -/
theorem C5_parseCSV_semantics_witness :
    (∃ h ∈ headersOf "firstName,lastName\nAda,Lovelace",
      ("firstName" : String) = camel h)
    ∧ getField [("firstName", "Ada"), ("lastName", "Lovelace")]
        (camel "lastName") ≠ none := by
  obtain ⟨huniv, hada, -, -⟩ := C5_parseCSV_semantics
  have hrmem : ([("firstName", "Ada"), ("lastName", "Lovelace")] : Obj)
      ∈ parseCSV "firstName,lastName\nAda,Lovelace" := by
    rw [hada]
    exact List.mem_singleton.mpr rfl
  obtain ⟨hkeys, hpres⟩ := huniv _ _ hrmem
  refine ⟨hkeys ("firstName", "Ada") (by decide), ?_⟩
  exact hpres "lastName" (by decide)

/-! ### Import validation (`validateAndLoadData`) -/

/-- A JSON value, the domain of `validateAndLoadData` (both call sites pass
`JSON.parse` output, so there is no `undefined`, no function and no
cycle). -/
inductive JsValue where
  | vNull
  | vBool (b : Bool)
  | vNum (n : Int)
  | vStr (s : String)
  | vArr (elems : List JsValue)
  | vObj (fields : List (String × JsValue))
deriving BEq, Repr

/-- JS truthiness of a JSON value (`!data` is the negation of this). -/
def truthy : JsValue → Bool
  | .vNull => false
  | .vBool b => b
  | .vNum n => !(n == 0)
  | .vStr s => !(s == "")
  | .vArr _ => true
  | .vObj _ => true

/-- `typeof data === 'object'` on a JSON value (`null`, arrays and objects
all have typeof `'object'`). -/
def typeofIsObject : JsValue → Bool
  | .vNull => true
  | .vArr _ => true
  | .vObj _ => true
  | _ => false

/-- A canonical decimal numeral, for array index keys. -/
def digitsToNat? (cs : List Char) : Option Nat :=
  if cs = [] then none
  else if cs.all Char.isDigit then
    some (cs.foldl (fun n c => n * 10 + (c.toNat - 48)) 0)
  else none

/-- `key in data`: own properties of an object; index keys and `length` for
an array.  (Inherited `Object.prototype` names and non-canonical numeral
strings are not modelled; none of the five keys this program queries is
one.) -/
def keyIn (k : String) : JsValue → Bool
  | .vObj fs => fs.any (fun p => p.1 == k)
  | .vArr es =>
    (k == "length") ||
      (match digitsToNat? k.data with
        | some i => decide (i < es.length)
        | none => false)
  | _ => false

/-- `data[key]` (only read under `key in data`; reads that would be
`undefined` in JS return `vNull` here, a value the program never
observes). -/
def getKey (k : String) : JsValue → JsValue
  | .vObj fs => (getField fs k).getD .vNull
  | .vArr es =>
    (match digitsToNat? k.data with
      | some i => es.getD i .vNull
      | none => .vNull)
  | _ => .vNull

/-- `deepClone(v) = JSON.parse(JSON.stringify(v))`: on values that came
from `JSON.parse` the round trip rebuilds an equal value, and a pure
embedding has no object identity to distinguish the rebuilt copy from the
original, so the clone is the identity on `JsValue`. -/
def deepCloneJs (v : JsValue) : JsValue := v

/-- The field list of `AppState.initial()` as a JSON object. -/
def jsInitialFields : List (String × JsValue) :=
  [("version", .vStr "1.0.0"), ("students", .vArr []),
   ("teachers", .vArr []), ("classes", .vArr []),
   ("enrollments", .vArr []), ("theme", .vStr "dark")]

/-- `AppState.initial()` as a JSON value. -/
def jsInitialState : JsValue := .vObj jsInitialFields

/-- The recognized top-level snapshot keys, in the order the source loops
over them. -/
def recognizedKeys : List String :=
  ["students", "teachers", "classes", "enrollments", "theme"]

/-- The overlay loop of `validateAndLoadData`:
`for key of recognized: if (key in data) next[key] = deepClone(data[key])`,
acting on the field list of the fresh default snapshot. -/
def overlayFields (data : JsValue) (fs : List (String × JsValue))
    (ks : List String) : List (String × JsValue) :=
  ks.foldl
    (fun acc k =>
      if keyIn k data then setField acc k (deepCloneJs (getKey k data)) else acc)
    fs

/-- `validateAndLoadData(data)`: throw `'Invalid data'` unless `data` is a
truthy value of typeof `'object'`; otherwise build the fresh default
snapshot, overlay the recognized keys present in `data`, and return it. -/
def validateAndLoadData (data : JsValue) : Except String JsValue :=
  if truthy data && typeofIsObject data then
    .ok (.vObj (overlayFields data jsInitialFields recognizedKeys))
  else .error "Invalid data"

/-- The whole operation as a state transformer with its save trace: on a
throw the previous state is untouched and nothing is saved; on success the
result replaces the state and is saved once. -/
def validateAndLoadRun (st : JsValue) (data : JsValue) :
    JsValue × List JsValue :=
  match validateAndLoadData data with
  | .error _ => (st, [])
  | .ok next => (next, [next])

/-- The own-key list of a JSON object. -/
def objKeys : JsValue → List String
  | .vObj fs => fs.map Prod.fst
  | _ => []

theorem keys_setField_mem {B : Type} (r : List (String × B)) (k : String)
    (v : B) (h : k ∈ r.map Prod.fst) :
    (setField r k v).map Prod.fst = r.map Prod.fst := by
  induction r with
  | nil => simp at h
  | cons p rest ih =>
    by_cases hp : (p.1 == k) = true
    · rw [show setField (p :: rest) k v = (k, v) :: rest from by
        rw [setField, if_pos hp]]
      have : p.1 = k := by simpa using hp
      simp [this]
    · rw [show setField (p :: rest) k v = p :: setField rest k v from by
        rw [setField, if_neg hp]]
      have hk : k ∈ rest.map Prod.fst := by
        rcases List.mem_map.mp h with ⟨q, hq, hqk⟩
        rcases List.mem_cons.mp hq with hh | ht
        · exfalso
          apply hp
          rw [hh] at hqk
          simp [hqk]
        · exact List.mem_map.mpr ⟨q, ht, hqk⟩
      simp [ih hk]

theorem overlayFields_cons (data : JsValue) (fs : List (String × JsValue))
    (k : String) (ks : List String) :
    overlayFields data fs (k :: ks)
      = overlayFields data
          (if keyIn k data then setField fs k (deepCloneJs (getKey k data)) else fs)
          ks := rfl

theorem overlay_keys (data : JsValue) (ks : List String)
    (fs : List (String × JsValue)) (hsub : ∀ k ∈ ks, k ∈ fs.map Prod.fst) :
    (overlayFields data fs ks).map Prod.fst = fs.map Prod.fst := by
  induction ks generalizing fs with
  | nil => rfl
  | cons k rest ih =>
    rw [overlayFields_cons]
    by_cases hk : keyIn k data = true
    · rw [if_pos hk]
      have hkeys := keys_setField_mem fs k (deepCloneJs (getKey k data))
        (hsub k (List.mem_cons_self k rest))
      have hsub' : ∀ k' ∈ rest,
          k' ∈ (setField fs k (deepCloneJs (getKey k data))).map Prod.fst := by
        intro k' hk'
        rw [hkeys]
        exact hsub k' (List.mem_cons_of_mem k hk')
      rw [ih _ hsub', hkeys]
    · rw [if_neg hk]
      exact ih fs (fun k' hk' => hsub k' (List.mem_cons_of_mem k hk'))

theorem overlay_getField_not_mem (data : JsValue) (ks : List String)
    (fs : List (String × JsValue)) (k : String) (hk : k ∉ ks) :
    getField (overlayFields data fs ks) k = getField fs k := by
  induction ks generalizing fs with
  | nil => rfl
  | cons k' rest ih =>
    have hne : k ≠ k' := fun hc => hk (hc ▸ List.mem_cons_self k' rest)
    have hrest : k ∉ rest := fun hc => hk (List.mem_cons_of_mem k' hc)
    rw [overlayFields_cons]
    by_cases hc : keyIn k' data = true
    · rw [if_pos hc, ih _ hrest, getField_setField_ne _ _ _ _ hne]
    · rw [if_neg hc, ih _ hrest]

theorem overlay_getField_mem (data : JsValue) (ks : List String)
    (fs : List (String × JsValue)) (k : String) (hk : k ∈ ks)
    (hnd : ks.Nodup) :
    getField (overlayFields data fs ks) k
      = if keyIn k data then some (deepCloneJs (getKey k data))
        else getField fs k := by
  induction ks generalizing fs with
  | nil => exact absurd hk (List.not_mem_nil k)
  | cons k' rest ih =>
    obtain ⟨hknotin, hndrest⟩ := List.nodup_cons.mp hnd
    rw [overlayFields_cons]
    rcases List.mem_cons.mp hk with hh | ht
    · subst hh
      by_cases hc : keyIn k data = true
      · rw [if_pos hc, overlay_getField_not_mem data rest _ k hknotin,
          getField_setField_self, if_pos hc]
      · rw [if_neg hc, overlay_getField_not_mem data rest _ k hknotin, if_neg hc]
    · have hne : k ≠ k' := fun hc => hknotin (hc ▸ ht)
      by_cases hc : keyIn k' data = true
      · rw [if_pos hc, ih _ ht hndrest, getField_setField_ne _ _ _ _ hne]
      · rw [if_neg hc, ih _ ht hndrest]

/-- `Except.isOk` spelled out (success / failure discriminator). -/
def isOkE {E A : Type} : Except E A → Bool
  | .ok _ => true
  | .error _ => false

/-- A sample import payload: one recognized key, one junk key. -/
def sampleImport : JsValue :=
  .vObj [("students", .vArr [.vStr "x"]), ("junk", .vNum 5)]

/-- C6: `validateAndLoadData` throws exactly when the payload is not a
truthy value of JS typeof `'object'` (absent / primitive input), leaving
the in-memory state untouched and saving nothing; on success it returns
the fresh default snapshot overlaid with exactly the recognized top-level
keys present in the payload (value copies of the payload's values),
ignoring unrecognized keys, keeping defaults for missing ones, replacing
the state and saving it once. -/
theorem C6_validateAndLoad_semantics (st data : JsValue) :
    (isOkE (validateAndLoadData data) = true
      ↔ (truthy data = true ∧ typeofIsObject data = true))
    ∧ (isOkE (validateAndLoadData data) = false →
        validateAndLoadRun st data = (st, []))
    ∧ (∀ next, validateAndLoadData data = .ok next →
        objKeys next = objKeys jsInitialState
        ∧ (∀ k ∈ recognizedKeys, keyIn k data = true →
            getKey k next = deepCloneJs (getKey k data))
        ∧ (∀ k ∈ recognizedKeys, keyIn k data = false →
            getKey k next = getKey k jsInitialState)
        ∧ validateAndLoadRun st data = (next, [next])) := by
  by_cases hguard : (truthy data && typeofIsObject data) = true
  · have hok : validateAndLoadData data
        = .ok (.vObj (overlayFields data jsInitialFields recognizedKeys)) := by
      unfold validateAndLoadData
      rw [if_pos hguard]
    refine ⟨?_, ?_, ?_⟩
    · rw [hok]
      have hg := hguard
      rw [Bool.and_eq_true] at hg
      simp [isOkE, hg.1, hg.2]
    · intro hfail
      rw [hok] at hfail
      simp [isOkE] at hfail
    · intro next hnext
      rw [hok] at hnext
      have hv : next = .vObj (overlayFields data jsInitialFields recognizedKeys) := by
        injection hnext with h
        exact h.symm
      subst hv
      have hnd : recognizedKeys.Nodup := by decide
      have hsub : ∀ k ∈ recognizedKeys, k ∈ jsInitialFields.map Prod.fst := by decide
      refine ⟨?_, ?_, ?_, ?_⟩
      · show (overlayFields data jsInitialFields recognizedKeys).map Prod.fst
          = jsInitialFields.map Prod.fst
        exact overlay_keys data recognizedKeys jsInitialFields hsub
      · intro k hk hkin
        show (getField (overlayFields data jsInitialFields recognizedKeys) k).getD .vNull
          = deepCloneJs (getKey k data)
        rw [overlay_getField_mem data recognizedKeys jsInitialFields k hk hnd,
          if_pos hkin]
        rfl
      · intro k hk hkout
        show (getField (overlayFields data jsInitialFields recognizedKeys) k).getD .vNull
          = getKey k jsInitialState
        rw [overlay_getField_mem data recognizedKeys jsInitialFields k hk hnd,
          if_neg (by rw [hkout]; exact Bool.false_ne_true)]
        rfl
      · unfold validateAndLoadRun
        rw [hok]
  · have herr : validateAndLoadData data = .error "Invalid data" := by
      unfold validateAndLoadData
      rw [if_neg hguard]
    refine ⟨?_, ?_, ?_⟩
    · rw [herr]
      constructor
      · intro h
        simp [isOkE] at h
      · intro h
        refine absurd ?_ hguard
        rw [h.1, h.2]
        rfl
    · intro hfail
      unfold validateAndLoadRun
      rw [herr]
    · intro next hnext
      rw [herr] at hnext
      exact absurd hnext (by intro h; injection h)

/-- Witness for C6: a payload with one recognized and one junk key loads
into the default snapshot with only `students` overlaid (junk ignored,
`theme` defaulted), keeping exactly the default snapshot's keys; a
primitive payload fails and leaves the state and store untouched. -/
theorem C6_validateAndLoad_semantics_witness :
    isOkE (validateAndLoadData sampleImport) = true
    ∧ (∀ next, validateAndLoadData sampleImport = .ok next →
        getKey "students" next = .vArr [.vStr "x"]
        ∧ getKey "theme" next = .vStr "dark"
        ∧ objKeys next = objKeys jsInitialState)
    ∧ validateAndLoadRun jsInitialState (.vNum 3) = (jsInitialState, []) := by
  obtain ⟨hiff, -, hsucc⟩ := C6_validateAndLoad_semantics jsInitialState sampleImport
  obtain ⟨-, hfail, -⟩ := C6_validateAndLoad_semantics jsInitialState (.vNum 3)
  refine ⟨hiff.mpr ⟨rfl, rfl⟩, ?_, hfail rfl⟩
  intro next hnext
  obtain ⟨hkeys, hin, hout, -⟩ := hsucc next hnext
  refine ⟨?_, ?_, hkeys⟩
  · have := hin "students" (by decide) rfl
    rw [this]
    rfl
  · have := hout "theme" (by decide) rfl
    rw [this]
    rfl

/-- C10: any truthy value of JS typeof `'object'` — arrays included —
passes validation; an array carries none of the recognized keys, so
importing any JSON array replaces the state by the default empty snapshot
(all collections empty, theme dark) and persists it once. -/
theorem C10_array_import_semantics (st : JsValue) (elems : List JsValue) :
    validateAndLoadData (.vArr elems) = .ok jsInitialState
    ∧ validateAndLoadRun st (.vArr elems) = (jsInitialState, [jsInitialState])
    ∧ (∀ v : JsValue, truthy v = true → typeofIsObject v = true →
        ∃ next, validateAndLoadData v = .ok next) := by
  refine ⟨rfl, rfl, ?_⟩
  intro v htr hto
  unfold validateAndLoadData
  have hg : (truthy v && typeofIsObject v) = true := by
    rw [htr, hto]
    rfl
  rw [if_pos hg]
  exact ⟨_, rfl⟩

/-- Witness for C10: a concrete nonempty array imports as the default
snapshot and is saved once; a concrete plain object passes validation. -/
theorem C10_array_import_semantics_witness :
    validateAndLoadData (.vArr [.vNum 1, .vStr "x"]) = .ok jsInitialState
    ∧ validateAndLoadRun jsInitialState (.vArr [.vNum 1, .vStr "x"])
        = (jsInitialState, [jsInitialState])
    ∧ ∃ next, validateAndLoadData (.vObj []) = .ok next := by
  obtain ⟨h1, h2, h3⟩ :=
    C10_array_import_semantics jsInitialState [.vNum 1, .vStr "x"]
  exact ⟨h1, h2, h3 (.vObj []) rfl rfl⟩

end SchoolApp
